import Mathlib

/-!
Verification development for the `enum-conversion-derive` code generator.

The generator is a derive-style macro: it consumes the AST of one type
declaration and emits one generated source unit (marker namespace plus three
families of trait implementations).  The development below is a shallow
embedding of the three source files:

* `src/parse_enum.rs` : schema extraction, validation, marker synthesis;
* `src/templates.rs`  : the three raw template strings;
* `src/lib.rs`        : the per-variant template rendering and the final
  concatenation performed by `impl_conversions`.

Modelling conventions:

* Token streams are modelled as plain text.  The host AST library and the
  token-stream emission machinery are external collaborators; the pieces of
  the input AST that the generator only ever re-renders as text (the generics
  list with bounds, the where-clause, payload type signatures) are carried as
  the text the AST library would render for them.
* A Rust `panic!` is modelled as `Except.error` carrying the panic message;
  the message strings are transcribed verbatim from the source.
* The schema map is a Rust `HashMap`.  Equality of schemas is equality of the
  underlying key-value maps; a `HashMap` does not specify an iteration order
  (each map instance uses a randomly seeded hasher), so functions that iterate
  the map take the iteration order as an explicit list, constrained in the
  theorems to be a permutation of the map entries (`IterationOrder`).
-/

namespace EnumConv

/-- Model of `syn::Fields`: the field list of one enum variant.  For unnamed
(tuple-style) fields the generator only ever uses the rendered text of each
field type, so the embedding carries that text. -/
inductive Fields where
  | unnamed (tys : List String)
  | named
  | unit
deriving DecidableEq

/-- Model of `syn::Variant`: a variant identifier together with its fields. -/
structure Variant where
  ident : String
  fields : Fields
deriving DecidableEq

/-- Model of `syn::GenericParam`: a type, lifetime or const parameter.  Each
constructor carries the rendered text of the parameter identifier alone
(bounds dropped), which is all `fetch_name_with_generic_params` reads. -/
inductive GenericParam where
  | typeParam (ident : String)
  | lifetimeParam (lifetime : String)
  | constParam (ident : String)
deriving DecidableEq

/-- Model of `syn::Data`: the declaration is an enum, a struct or a union. -/
inductive Data where
  | enumData (variants : List Variant)
  | structData
  | unionData
deriving DecidableEq

/-- Model of `syn::DeriveInput`, restricted to the parts the generator reads:

* `ident` rendered as text,
* the generic parameter list, both structurally (`params`, used for the
  fully-applied name) and as the rendered declaration text with bounds
  (`genericsDecl`, what `generics.to_token_stream().to_string()` yields after
  the where-clause has been taken out),
* the rendered where-clause text, when the declaration has one,
* the declaration body.  -/
structure DeriveInput where
  ident : String
  params : List GenericParam
  genericsDecl : String
  whereClause : Option String
  data : Data
deriving DecidableEq

/-! ### parse_enum.rs -/

/-- Bare identifier of one generic parameter, as rendered inside the loop of
`fetch_name_with_generic_params`. -/
def bareParamIdent : GenericParam → String
  | .typeParam i => i
  | .lifetimeParam l => l
  | .constParam i => i

/-- Translation of `fetch_name_with_generic_params`: push every parameter
identifier followed by a comma, pop the last character (`String::pop`), and
wrap in angle brackets when the result is non-empty. -/
def fetchNameWithGenericParams (ast : DeriveInput) : String :=
  let paramString := ast.params.foldl (fun s p => s ++ bareParamIdent p ++ ",") ""
  let paramString : String := ⟨paramString.data.dropLast⟩
  if paramString ≠ "" then ast.ident ++ "<" ++ paramString ++ ">" else ast.ident

/-- Translation of `fetch_impl_generics`: the rendered generics list (bounds
included, where-clause removed) together with the rendered where-clause,
defaulting to the empty string. -/
def fetchImplGenerics (ast : DeriveInput) : String × String :=
  (ast.genericsDecl, ast.whereClause.getD "")

/-- Panic message for a variant whose unnamed field list does not have exactly
one element. -/
def multipleFieldsMsg : String :=
  "Can only derive for enums whose types do not contain multiple fields."

/-- Panic message for a variant with named fields. -/
def namedFieldsMsg : String :=
  "Can only derive for enums whose types do not have named fields."

/-- Panic message for a unit variant. -/
def unitVariantMsg : String :=
  "Can only derive for enums who don\x27t contain unit types as variants."

/-- Panic message for a declaration that is not an enum. -/
def notEnumMsg : String :=
  "Can only derive for enums."

/-- Body of the closure mapped over the variants in `fetch_fields_from_enum`:
one variant yields its `(name, payload type text)` entry or panics. -/
def fetchVariantEntry (var : Variant) : Except String (String × String) :=
  match var.fields with
  | .unnamed [ty] => .ok (var.ident, ty)
  | .unnamed _ => .error multipleFieldsMsg
  | .named => .error namedFieldsMsg
  | .unit => .error unitVariantMsg

/-- Sequential evaluation of the mapped iterator inside the `collect` of
`fetch_fields_from_enum`: the first panicking variant aborts the whole
extraction. -/
def collectEntries : List Variant → Except String (List (String × String))
  | [] => .ok []
  | v :: vs =>
    match fetchVariantEntry v with
    | .error e => .error e
    | .ok entry =>
      match collectEntries vs with
      | .error e => .error e
      | .ok rest => .ok (entry :: rest)

/-- One `HashMap::insert`: replace the value when the key is present,
otherwise add the pair.  The entry list is a canonical representation of the
map; iteration order is handled separately. -/
def hashInsert (m : List (String × String)) (k v : String) : List (String × String) :=
  if m.any (fun p => p.1 == k) then m.map (fun p => if p.1 == k then (k, v) else p)
  else m ++ [(k, v)]

/-- Collecting an iterator of pairs into a `HashMap`: fold `insert` over the
pairs, later values overwriting earlier ones at the same key. -/
def hashCollect (l : List (String × String)) : List (String × String) :=
  l.foldl (fun m p => hashInsert m p.1 p.2) []

/-- Translation of `fetch_fields_from_enum`: on an enum, map every variant to
its entry and collect into the schema map; otherwise panic. -/
def fetchFieldsFromEnum (ast : DeriveInput) : Except String (List (String × String)) :=
  match ast.data with
  | .enumData variants => (collectEntries variants).map hashCollect
  | .structData => .error notEnumMsg
  | .unionData => .error notEnumMsg

/-- Rendered declaration of one marker enum inside the marker module, as
pushed by the loop of `create_marker_enums` for one key of the schema map. -/
def markerRendering (field : String) : String :=
  "pub(crate) enum " ++ field ++ "\x7b\x7d"

/-- Translation of `create_marker_enums`: the attribute line and module header
derived from the enum name, then one marker enum per key of the schema map in
iteration order, then the closing brace. -/
def createMarkerEnums (name : String) (order : List (String × String)) : String :=
  "#[allow(non_snake_case]\n mod enum___conversion___" ++ name ++ "\x7b "
    ++ String.join (order.map (fun p => markerRendering p.1)) ++ "\x7d"

/-- Translation of `get_marker`: the qualified name of the marker associated
with one variant of one enum. -/
def getMarker (name field : String) : String :=
  "enum___conversion___" ++ name ++ "::" ++ field

/-! ### templates.rs, rendered

Tera rendering of a registered template with a complete context is plain
placeholder substitution; each `render...` function below is the corresponding
template string with its `\x7b\x7b variable \x7d\x7d` holes filled in. -/

/-- Rendering of `GET_VARIANT_TEMPLATE` for one variant. -/
def renderGetVariant (generics ty marker fullname name field whereS : String) : String :=
  "\nimpl" ++ generics ++ " variant_access_traits::GetVariant<" ++ ty ++ ", " ++ marker
    ++ " > for " ++ fullname ++ "\n" ++ whereS
    ++ " \x7b\n    fn get_variant(self) -> std::result::Result<" ++ ty
    ++ ", variant_access_traits::VariantAccessError> \x7b\n        match self \x7b\n            "
    ++ name ++ "::" ++ field
    ++ "(inner) => Ok(inner),\n            _ => Err(variant_access_traits::VariantAccessError::wrong_active_field(\""
    ++ fullname ++ "\", \"" ++ ty
    ++ "\"))\n        \x7d\n    \x7d\n\n    fn get_variant_ref(&self) -> std::result::Result<&" ++ ty
    ++ ", variant_access_traits::VariantAccessError> \x7b\n        match &self \x7b\n            "
    ++ name ++ "::" ++ field
    ++ "(inner) => Ok(inner),\n            _ => Err(variant_access_traits::VariantAccessError::wrong_active_field(\""
    ++ fullname ++ "\", \"" ++ ty
    ++ "\"))\n        \x7d\n    \x7d\n\n    fn get_variant_mut(&mut self) -> std::result::Result<&mut " ++ ty
    ++ ", variant_access_traits::VariantAccessError> \x7b\n        match self \x7b\n            "
    ++ name ++ "::" ++ field
    ++ "(inner) => Ok(inner),\n            _  => Err(variant_access_traits::VariantAccessError::wrong_active_field(\""
    ++ fullname ++ "\", \"" ++ ty
    ++ "\"))\n        \x7d\n    \x7d\n"

/-- Rendering of `TRY_FROM_TEMPLATE` for one variant. -/
def renderTryFrom (generics ty fullname name whereS : String) : String :=
  "\nimpl" ++ generics ++ " TryFrom<" ++ fullname ++ "> for " ++ ty ++ "\n" ++ whereS
    ++ "\n\x7b\n    type Error = Box<dyn Error + \x27static>\n\n    fn try_from(value: " ++ name
    ++ ") -> std::result::Result<Self, Self::Error> \x7b\n        value.get_variant().map_err(|e| e.to_string().into())\n    \x7d\n\x7d"

/-- Rendering of `FROM_TEMPLATE` for one variant. -/
def renderFrom (generics ty fullname field whereS : String) : String :=
  "\nimpl" ++ generics ++ " From<" ++ ty ++ "> for " ++ fullname ++ "\n" ++ whereS
    ++ "\n\x7b\n\n    fn from(value: " ++ ty ++ ") -> Self \x7b\n        Self::" ++ field
    ++ "(value)\n    \x7d\n\x7d\n"

/-! ### lib.rs -/

/-- Renderings accumulated by the loop of `impl_get_variant`, in schema-map
iteration order. -/
def getVariantRenderings (name fullname whereClause implGenerics : String)
    (order : List (String × String)) : List String :=
  order.map (fun p =>
    renderGetVariant implGenerics p.2 (getMarker name p.1) fullname name p.1 whereClause)

/-- Translation of `impl_get_variant`: the concatenation of the per-variant
renderings. -/
def implGetVariant (name fullname whereClause implGenerics : String)
    (order : List (String × String)) : String :=
  String.join (getVariantRenderings name fullname whereClause implGenerics order)

/-- Where-clause text computed inside the loop of `impl_try_from` for one
variant: the declared where-clause with the synthesized `GetVariant` bound
pushed onto it. -/
def tryFromWhereString (whereClause fullname name field ty : String) : String :=
  whereClause ++
    (if whereClause == "" then
      "where\n " ++ fullname ++ ": GetVariant<" ++ ty ++ ", " ++ getMarker name field ++ ">"
    else
      "\n " ++ fullname ++ ": GetVariant<" ++ ty ++ ", " ++ getMarker name field ++ ">")

/-- Renderings accumulated by the loop of `impl_try_from`, in schema-map
iteration order. -/
def tryFromRenderings (name fullname whereClause implGenerics : String)
    (order : List (String × String)) : List String :=
  order.map (fun p =>
    renderTryFrom implGenerics p.2 fullname name
      (tryFromWhereString whereClause fullname name p.1 p.2))

/-- Translation of `impl_try_from`: the concatenation of the per-variant
renderings. -/
def implTryFrom (name fullname whereClause implGenerics : String)
    (order : List (String × String)) : String :=
  String.join (tryFromRenderings name fullname whereClause implGenerics order)

/-- Renderings accumulated by the loop of `impl_from`, in schema-map iteration
order. -/
def fromRenderings (fullname whereClause implGenerics : String)
    (order : List (String × String)) : List String :=
  order.map (fun p => renderFrom implGenerics p.2 fullname p.1 whereClause)

/-- Translation of `impl_from`: the concatenation of the per-variant
renderings. -/
def implFrom (fullname whereClause implGenerics : String)
    (order : List (String × String)) : String :=
  String.join (fromRenderings fullname whereClause implGenerics order)

/-- Translation of `impl_conversions`: extract the schema (aborting with the
extraction panic when it fails), then emit the marker module followed by the
three implementation families, every loop walking the one schema map in its
iteration order `order`. -/
def implConversions (ast : DeriveInput) (order : List (String × String)) :
    Except String String :=
  match fetchFieldsFromEnum ast with
  | .error e => .error e
  | .ok _ =>
    let name := ast.ident
    let fullname := fetchNameWithGenericParams ast
    let implGenerics := (fetchImplGenerics ast).1
    let whereClause := (fetchImplGenerics ast).2
    .ok (createMarkerEnums name order
      ++ implGetVariant name fullname whereClause implGenerics order
      ++ implTryFrom name fullname whereClause implGenerics order
      ++ implFrom fullname whereClause implGenerics order)

/-- Iteration orders of the schema map of `ast`: extraction succeeds and the
list enumerates the map entries in some order.  A Rust `HashMap` leaves the
order unspecified (every map instance hashes with a random seed), so any
permutation of the entries is an admissible order. -/
def IterationOrder (ast : DeriveInput) (order : List (String × String)) : Prop :=
  ∃ m, fetchFieldsFromEnum ast = .ok m ∧ order.Perm m

/-! ### Spec-side descriptions used to state the claims -/

/-- Valid declaration bodies of the spec: K variants, the i-th named by the
i-th element of `names` and wrapping one unnamed field whose type text is the
i-th element of `tys`. -/
def mkVariants (names tys : List String) : List Variant :=
  List.zipWith (fun n t => ⟨n, .unnamed [t]⟩) names tys

/-- Spec description of the marker namespace name: derived deterministically
from the enum name. -/
def markerModuleName (name : String) : String :=
  "enum___conversion___" ++ name

/-- Spec description of a comma-joined list of identifiers. -/
def commaJoined : List String → String
  | [] => ""
  | [x] => x
  | x :: y :: xs => x ++ "," ++ commaJoined (y :: xs)

/-- Spec description of the fully-applied name: the declared name followed by
the comma-joined bare parameter identifiers in angle brackets, or the bare
name alone when there are no generic parameters. -/
def fullyAppliedNameSpec (ast : DeriveInput) : String :=
  if ast.params = [] then ast.ident
  else ast.ident ++ "<" ++ commaJoined (ast.params.map bareParamIdent) ++ ">"

/-- Shape rejected by the validator: the declaration is not an enum, or some
variant does not consist of exactly one unnamed payload field. -/
def InvalidShape (ast : DeriveInput) : Prop :=
  (∀ variants, ast.data ≠ .enumData variants) ∨
  (∃ variants, ast.data = .enumData variants ∧
    ∃ v ∈ variants, ∀ ty, v.fields ≠ .unnamed [ty])

/-! ### Semantics of the generated code

The round-trip claim is about the behaviour of the emitted implementations,
so the bodies of `FROM_TEMPLATE` and `GET_VARIANT_TEMPLATE` are given a
semantic model: a value of the derived enum is its active variant name
together with the payload it wraps. -/

/-- Error type of the external `variant_access_traits` crate, as used by the
templates: `wrong_active_field` carries the container name and the requested
payload type. -/
inductive VariantAccessError where
  | wrongActiveField (container ty : String)
deriving DecidableEq

/-- Runtime value of a derived enum: the name of the active variant and the
payload stored in it. -/
structure EnumValue (α : Type) where
  activeVariant : String
  payload : α

/-- Semantics of the body emitted by `FROM_TEMPLATE` for a variant `field`:
`Self::field(value)` wraps the payload into that variant. -/
def generatedFrom {α : Type} (field : String) (v : α) : EnumValue α :=
  ⟨field, v⟩

/-- Semantics of the `get_variant` body emitted by `GET_VARIANT_TEMPLATE` for
a variant `field`: the match returns the payload when the active variant is
`field` and otherwise the `wrong_active_field` error naming the container and
the requested payload type. -/
def generatedGetVariant {α : Type} (fullname ty field : String) (e : EnumValue α) :
    Except VariantAccessError α :=
  if e.activeVariant = field then .ok e.payload
  else .error (.wrongActiveField fullname ty)

/-! ### Concrete inputs used by witnesses and counterexamples -/

/-- Declaration `enum Enum \x7b A(i64), B(bool) \x7d` of the spec scenario. -/
def sampleInput : DeriveInput :=
  ⟨"Enum", [], "", none, .enumData [⟨"A", .unnamed ["i64"]⟩, ⟨"B", .unnamed ["bool"]⟩]⟩

/-- One iteration order of the schema map of `sampleInput`. -/
def sampleOrder : List (String × String) :=
  [("A", "i64"), ("B", "bool")]

/-- The other iteration order of the schema map of `sampleInput`. -/
def sampleOrderRev : List (String × String) :=
  [("B", "bool"), ("A", "i64")]

/-! ### Helper lemmas on strings -/

theorem stringDataInj {a b : String} (h : a.data = b.data) : a = b := by
  cases a
  cases b
  exact congrArg String.mk h

theorem stringAppendCancelLeft {a b c : String} (h : a ++ b = a ++ c) : b = c := by
  apply stringDataInj
  have hd := congrArg String.data h
  rw [String.data_append, String.data_append] at hd
  exact List.append_cancel_left hd

theorem stringAppendCancelRight {a b c : String} (h : a ++ c = b ++ c) : a = b := by
  apply stringDataInj
  have hd := congrArg String.data h
  rw [String.data_append, String.data_append] at hd
  exact List.append_cancel_right hd

theorem stringAppendEqEmptyLeft {a b : String} (h : a ++ b = "") : a = "" := by
  apply stringDataInj
  have hd := congrArg String.data h
  rw [String.data_append] at hd
  have hnil : a.data ++ b.data = ([] : List Char) := hd
  exact (List.append_eq_nil.mp hnil).1

theorem getMarkerInj {name f g : String} (h : getMarker name f = getMarker name g) :
    f = g := by
  simp only [getMarker] at h
  exact stringAppendCancelLeft h

/-! ### Helper lemmas on extraction -/

theorem collectEntriesOfValid (vs : List Variant)
    (h : ∀ v ∈ vs, ∃ ty, v.fields = .unnamed [ty]) :
    ∃ l, collectEntries vs = .ok l ∧ l.map Prod.fst = vs.map Variant.ident := by
  induction vs with
  | nil => exact ⟨[], rfl, rfl⟩
  | cons v rest ih =>
    obtain ⟨ty, hty⟩ := h v (by simp)
    obtain ⟨l, hl, hmap⟩ := ih (fun w hw => h w (by simp [hw]))
    exact ⟨(v.ident, ty) :: l, by simp [collectEntries, fetchVariantEntry, hty, hl],
      by simp [hmap]⟩

theorem collectEntriesMkVariants : ∀ (names tys : List String),
    collectEntries (mkVariants names tys) = .ok (names.zip tys) := by
  intro names
  induction names with
  | nil => intro tys; rfl
  | cons n ns ih =>
    intro tys
    cases tys with
    | nil => rfl
    | cons t ts =>
      simp [mkVariants, collectEntries, fetchVariantEntry] at ih ⊢
      rw [ih ts]

theorem collectEntriesOfInvalid (vs : List Variant)
    (h : ∃ v ∈ vs, ∀ ty, v.fields ≠ .unnamed [ty]) :
    ∃ msg, collectEntries vs = .error msg ∧
      (msg = multipleFieldsMsg ∨ msg = namedFieldsMsg ∨ msg = unitVariantMsg) := by
  induction vs with
  | nil =>
    obtain ⟨v, hv, _⟩ := h
    simp at hv
  | cons v rest ih =>
    obtain ⟨w, hw, hbad⟩ := h
    by_cases hv : ∃ ty, v.fields = .unnamed [ty]
    · obtain ⟨ty, hty⟩ := hv
      have hwrest : w ∈ rest := by
        rcases List.mem_cons.mp hw with rfl | h2
        · exact absurd hty (hbad ty)
        · exact h2
      obtain ⟨msg, hmsg, hmem⟩ := ih ⟨w, hwrest, hbad⟩
      exact ⟨msg, by simp [collectEntries, fetchVariantEntry, hty, hmsg], hmem⟩
    · cases hfv : v.fields with
      | unnamed tys =>
        cases tys with
        | nil =>
          exact ⟨multipleFieldsMsg, by simp [collectEntries, fetchVariantEntry, hfv],
            Or.inl rfl⟩
        | cons t ts =>
          cases ts with
          | nil => exact absurd ⟨t, hfv⟩ hv
          | cons t2 ts2 =>
            exact ⟨multipleFieldsMsg, by simp [collectEntries, fetchVariantEntry, hfv],
              Or.inl rfl⟩
      | named =>
        exact ⟨namedFieldsMsg, by simp [collectEntries, fetchVariantEntry, hfv],
          Or.inr (Or.inl rfl)⟩
      | unit =>
        exact ⟨unitVariantMsg, by simp [collectEntries, fetchVariantEntry, hfv],
          Or.inr (Or.inr rfl)⟩

theorem collectEntriesUnnamedZero (vs : List Variant)
    (hall : ∀ v ∈ vs, ∃ tys, v.fields = .unnamed tys)
    (hzero : ∃ v ∈ vs, v.fields = .unnamed []) :
    collectEntries vs = .error multipleFieldsMsg := by
  induction vs with
  | nil =>
    obtain ⟨v, hv, _⟩ := hzero
    simp at hv
  | cons v rest ih =>
    obtain ⟨w, hw, hwz⟩ := hzero
    obtain ⟨tys, hv⟩ := hall v (by simp)
    cases tys with
    | nil => simp [collectEntries, fetchVariantEntry, hv]
    | cons t ts =>
      cases ts with
      | nil =>
        have hwrest : w ∈ rest := by
          rcases List.mem_cons.mp hw with rfl | h2
          · rw [hv] at hwz
            simp at hwz
          · exact h2
        have hrest := ih (fun u hu => hall u (by simp [hu])) ⟨w, hwrest, hwz⟩
        simp [collectEntries, fetchVariantEntry, hv, hrest]
      | cons t2 ts2 => simp [collectEntries, fetchVariantEntry, hv]

/-! ### Helper lemmas on the map collection -/

theorem hashInsertOfForallNe (m : List (String × String)) (k v : String)
    (h : ∀ q ∈ m, q.1 ≠ k) : hashInsert m k v = m ++ [(k, v)] := by
  have hany : m.any (fun p => p.1 == k) = false :=
    List.any_eq_false.mpr (fun q hq => by simpa using h q hq)
  simp [hashInsert, hany]

theorem foldlHashInsertOfNodup : ∀ (l m : List (String × String)),
    (∀ p ∈ l, ∀ q ∈ m, q.1 ≠ p.1) → (l.map Prod.fst).Nodup →
    l.foldl (fun m p => hashInsert m p.1 p.2) m = m ++ l := by
  intro l
  induction l with
  | nil => intro m _ _; simp
  | cons p rest ih =>
    intro m hdisj hnodup
    have hpair : (p.1, p.2) = p := rfl
    have h1 : hashInsert m p.1 p.2 = m ++ [(p.1, p.2)] :=
      hashInsertOfForallNe m p.1 p.2 (fun q hq => hdisj p (by simp) q hq)
    have hnodup0 : (p.1 :: rest.map Prod.fst).Nodup := by simpa using hnodup
    have hp1 : p.1 ∉ rest.map Prod.fst := (List.nodup_cons.mp hnodup0).1
    have hnodup2 : (rest.map Prod.fst).Nodup := (List.nodup_cons.mp hnodup0).2
    have hdisj2 : ∀ r ∈ rest, ∀ q ∈ m ++ [(p.1, p.2)], q.1 ≠ r.1 := by
      intro r hr q hq
      rcases List.mem_append.mp hq with hq | hq
      · exact hdisj r (by simp [hr]) q hq
      · have hq2 : q = (p.1, p.2) := by simpa using hq
        rw [hq2]
        intro he
        exact hp1 (he.symm ▸ List.mem_map_of_mem Prod.fst hr)
    calc (p :: rest).foldl (fun m p => hashInsert m p.1 p.2) m
        = rest.foldl (fun m p => hashInsert m p.1 p.2) (hashInsert m p.1 p.2) := rfl
      _ = rest.foldl (fun m p => hashInsert m p.1 p.2) (m ++ [(p.1, p.2)]) := by rw [h1]
      _ = (m ++ [(p.1, p.2)]) ++ rest := ih (m ++ [(p.1, p.2)]) hdisj2 hnodup2
      _ = m ++ (p :: rest) := by simp

theorem hashCollectOfNodup (l : List (String × String))
    (h : (l.map Prod.fst).Nodup) : hashCollect l = l := by
  have := foldlHashInsertOfNodup l [] (by simp) h
  simpa [hashCollect] using this

/-! ### Helper lemmas for the fully-applied name -/

theorem foldlPushEq : ∀ (ps : List GenericParam), ps ≠ [] → ∀ (s : String),
    List.foldl (fun s p => s ++ bareParamIdent p ++ ",") s ps
      = s ++ commaJoined (ps.map bareParamIdent) ++ "," := by
  intro ps
  induction ps with
  | nil => intro h; exact absurd rfl h
  | cons p rest ih =>
    intro _ s
    cases rest with
    | nil => simp [commaJoined]
    | cons q rs =>
      rw [List.foldl_cons, ih (by simp) (s ++ bareParamIdent p ++ ",")]
      simp [commaJoined, String.append_assoc]

theorem commaJoinedNeEmpty (l : List String) (hl : l ≠ []) (h : ∀ x ∈ l, x ≠ "") :
    commaJoined l ≠ "" := by
  cases l with
  | nil => exact absurd rfl hl
  | cons x xs =>
    cases xs with
    | nil => simpa [commaJoined] using h x (by simp)
    | cons y ys =>
      intro hc
      have hx : x ≠ "" := h x (by simp)
      apply hx
      have h1 : x ++ "," ++ commaJoined (y :: ys) = "" := by
        simpa [commaJoined] using hc
      exact stringAppendEqEmptyLeft (stringAppendEqEmptyLeft h1)

/-! ### Claims -/

/-- C3: for every valid sum-type declaration with K variants (K at least 1),
each wrapping one unnamed payload field, the types pairwise distinct, schema
extraction succeeds and the variant map has exactly K entries whose keys are
the K case names, each mapped to the textual form of that case's payload
type. -/
theorem claim_C3 (ident genericsDecl : String) (whereClause : Option String)
    (gparams : List GenericParam) (names tys : List String)
    (hlen : names.length = tys.length) (_hK : 1 ≤ names.length)
    (hnames : names.Nodup) (_htys : tys.Nodup) :
    fetchFieldsFromEnum
        ⟨ident, gparams, genericsDecl, whereClause, .enumData (mkVariants names tys)⟩
        = .ok (names.zip tys)
      ∧ (names.zip tys).length = names.length
      ∧ (names.zip tys).map Prod.fst = names := by
  have hcoll := collectEntriesMkVariants names tys
  have hfst : (names.zip tys).map Prod.fst = names :=
    List.map_fst_zip names tys (le_of_eq hlen)
  have hnodup : ((names.zip tys).map Prod.fst).Nodup := by
    rw [hfst]
    exact hnames
  refine ⟨?_, ?_, hfst⟩
  · simp [fetchFieldsFromEnum, Except.map, hcoll, hashCollectOfNodup _ hnodup]
  · simp [List.length_zip, hlen]

/-- Witness for C3 at the concrete two-variant declaration of the spec
scenario. -/
theorem claim_C3_witness :
    fetchFieldsFromEnum
        ⟨"Enum", [], "", none, .enumData (mkVariants ["A", "B"] ["i64", "bool"])⟩
        = .ok ((["A", "B"] : List String).zip ["i64", "bool"])
      ∧ ((["A", "B"] : List String).zip ["i64", "bool"]).length
          = (["A", "B"] : List String).length
      ∧ ((["A", "B"] : List String).zip ["i64", "bool"]).map Prod.fst = ["A", "B"] :=
  claim_C3 "Enum" "" none [] ["A", "B"] ["i64", "bool"]
    (by decide) (by decide) (by decide) (by decide)

/-- C9: a declaration whose two variants wrap the same payload type under
distinct variant names extracts without failure; no payload-type uniqueness is
validated and the variant map holds an entry for each of the two variants. -/
theorem claim_C9 (ident genericsDecl : String) (whereClause : Option String)
    (gparams : List GenericParam) (a b ty : String) (h : a ≠ b) :
    fetchFieldsFromEnum
        ⟨ident, gparams, genericsDecl, whereClause,
          .enumData [⟨a, .unnamed [ty]⟩, ⟨b, .unnamed [ty]⟩]⟩
      = .ok [(a, ty), (b, ty)] := by
  have hne : (a == b) = false := beq_eq_false_iff_ne.mpr h
  simp [fetchFieldsFromEnum, Except.map, collectEntries, fetchVariantEntry,
    hashCollect, hashInsert, hne]

/-- Witness for C9: both variants wrap `i64`. -/
theorem claim_C9_witness :
    fetchFieldsFromEnum
        ⟨"Enum", [], "", none,
          .enumData [⟨"A", .unnamed ["i64"]⟩, ⟨"B", .unnamed ["i64"]⟩]⟩
      = .ok [("A", "i64"), ("B", "i64")] :=
  claim_C9 "Enum" "" none [] "A" "B" "i64" (by decide)

/-- C10: on a declaration whose variants all use unnamed-field syntax and at
least one of which has zero fields, extraction fails carrying the
multiple-fields message, which differs from the dedicated unit-case message:
the zero-field and many-field cases share one error path. -/
theorem claim_C10 (ast : DeriveInput) (variants : List Variant)
    (hdata : ast.data = .enumData variants)
    (hall : ∀ v ∈ variants, ∃ tys, v.fields = .unnamed tys)
    (hzero : ∃ v ∈ variants, v.fields = .unnamed []) :
    fetchFieldsFromEnum ast = .error multipleFieldsMsg
      ∧ multipleFieldsMsg ≠ unitVariantMsg := by
  refine ⟨?_, by decide⟩
  simp [fetchFieldsFromEnum, Except.map, hdata,
    collectEntriesUnnamedZero variants hall hzero]

/-- Witness for C10 at the declaration `enum E \x7b V() \x7d`. -/
theorem claim_C10_witness :
    fetchFieldsFromEnum ⟨"E", [], "", none, .enumData [⟨"V", .unnamed []⟩]⟩
        = .error multipleFieldsMsg
      ∧ multipleFieldsMsg ≠ unitVariantMsg :=
  claim_C10 ⟨"E", [], "", none, .enumData [⟨"V", .unnamed []⟩]⟩
    [⟨"V", .unnamed []⟩] rfl
    (by
      intro v hv
      have hv2 : v = ⟨"V", .unnamed []⟩ := by simpa using hv
      exact ⟨[], by rw [hv2]⟩)
    ⟨⟨"V", .unnamed []⟩, by simp, rfl⟩

/-- C4: on every declaration that is not an enum, or one of whose variants
does not have exactly one unnamed payload field, the invocation fails during
schema extraction, `impl_conversions` propagates exactly the extraction
message and emits no generated unit, the message is one of the four
rule-specific messages, and those four messages are pairwise distinct. -/
theorem claim_C4 (ast : DeriveInput) (order : List (String × String))
    (h : InvalidShape ast) :
    ∃ msg, fetchFieldsFromEnum ast = .error msg
      ∧ implConversions ast order = .error msg
      ∧ (msg = notEnumMsg ∨ msg = multipleFieldsMsg ∨ msg = namedFieldsMsg ∨
          msg = unitVariantMsg)
      ∧ [notEnumMsg, multipleFieldsMsg, namedFieldsMsg, unitVariantMsg].Pairwise (· ≠ ·) := by
  have hpw : [notEnumMsg, multipleFieldsMsg, namedFieldsMsg,
      unitVariantMsg].Pairwise (· ≠ ·) := by decide
  rcases h with hne | ⟨variants, hdata, hbad⟩
  · have herr : fetchFieldsFromEnum ast = .error notEnumMsg := by
      cases hd : ast.data with
      | enumData vs => exact absurd hd (hne vs)
      | structData => simp [fetchFieldsFromEnum, hd]
      | unionData => simp [fetchFieldsFromEnum, hd]
    exact ⟨notEnumMsg, herr, by simp [implConversions, herr], Or.inl rfl, hpw⟩
  · obtain ⟨msg, hmsg, hmem⟩ := collectEntriesOfInvalid variants hbad
    have herr : fetchFieldsFromEnum ast = .error msg := by
      simp [fetchFieldsFromEnum, Except.map, hdata, hmsg]
    refine ⟨msg, herr, by simp [implConversions, herr], ?_, hpw⟩
    rcases hmem with h1 | h1 | h1
    · exact Or.inr (Or.inl h1)
    · exact Or.inr (Or.inr (Or.inl h1))
    · exact Or.inr (Or.inr (Or.inr h1))

/-- Witness for C4 at a struct declaration. -/
theorem claim_C4_witness :
    ∃ msg, fetchFieldsFromEnum ⟨"S", [], "", none, .structData⟩ = .error msg
      ∧ implConversions ⟨"S", [], "", none, .structData⟩ [] = .error msg
      ∧ (msg = notEnumMsg ∨ msg = multipleFieldsMsg ∨ msg = namedFieldsMsg ∨
          msg = unitVariantMsg)
      ∧ [notEnumMsg, multipleFieldsMsg, namedFieldsMsg, unitVariantMsg].Pairwise (· ≠ ·) :=
  claim_C4 ⟨"S", [], "", none, .structData⟩ []
    (Or.inl (fun _variants h => nomatch h))

/-- C8: constructing a value via the generated infallible construction for a
variant and then extracting by value via the generated accessor for the same
variant succeeds and returns the original payload. -/
theorem claim_C8 {α : Type} (fullname ty field : String) (v : α) :
    generatedGetVariant fullname ty field (generatedFrom field v) = .ok v := by
  simp [generatedFrom, generatedGetVariant]

/-- C5: the where-clause rendered into the fallible-conversion implementation
of a variant is the enum's own declared where-clause followed by exactly one
synthesized constraint binding the fully-applied enum type to `GetVariant` at
that variant's payload type and marker; distinct variants receive distinct
markers, hence distinct constraints even at equal payload types. -/
theorem claim_C5 (whereClause fullname name field ty field2 : String)
    (h : field ≠ field2) :
    tryFromWhereString whereClause fullname name field ty
        = whereClause ++ ((if whereClause == "" then "where\n " else "\n ")
            ++ (fullname ++ ": GetVariant<" ++ ty ++ ", " ++ getMarker name field ++ ">"))
      ∧ getMarker name field ≠ getMarker name field2
      ∧ tryFromWhereString whereClause fullname name field ty
          ≠ tryFromWhereString whereClause fullname name field2 ty := by
  have hmark : getMarker name field ≠ getMarker name field2 :=
    fun he => h (getMarkerInj he)
  refine ⟨?_, hmark, ?_⟩
  · by_cases hw : whereClause = ""
    · simp [tryFromWhereString, hw, String.append_assoc]
    · simp [tryFromWhereString, beq_eq_false_iff_ne.mpr hw, String.append_assoc]
  · intro he
    apply hmark
    simp only [tryFromWhereString] at he
    have he2 := stringAppendCancelLeft he
    by_cases hw : whereClause = ""
    · rw [hw] at he2
      simp only [beq_self_eq_true, if_true] at he2
      exact stringAppendCancelLeft (stringAppendCancelRight he2)
    · rw [beq_eq_false_iff_ne.mpr hw] at he2
      simp only [Bool.false_eq_true, if_false] at he2
      exact stringAppendCancelLeft (stringAppendCancelRight he2)

/-- Witness for C5 at two variants `A` and `B` of a generic enum whose payload
types could unify. -/
theorem claim_C5_witness :
    tryFromWhereString "" "Enum<T,U>" "Enum" "A" "T" ++ "" -- keep names apart
        = "" ++ ((if ("" : String) == "" then "where\n " else "\n ")
            ++ ("Enum<T,U>" ++ ": GetVariant<" ++ "T" ++ ", "
              ++ getMarker "Enum" "A" ++ ">")) ++ ""
      ∧ getMarker "Enum" "A" ≠ getMarker "Enum" "B"
      ∧ tryFromWhereString "" "Enum<T,U>" "Enum" "A" "T"
          ≠ tryFromWhereString "" "Enum<T,U>" "Enum" "B" "T" := by
  obtain ⟨h1, h2, h3⟩ := claim_C5 "" "Enum<T,U>" "Enum" "A" "T" "B" (by decide)
  exact ⟨by rw [h1], h2, h3⟩

/-- C6: marker synthesis emits one private module whose name is derived
deterministically from the enum name, containing one empty marker enum per
variant named identically to the variant, and `get_marker` returns exactly
that marker's qualified name inside that module. -/
theorem claim_C6 (name : String) (order : List (String × String)) (field : String) :
    createMarkerEnums name order
        = "#[allow(non_snake_case]\n mod " ++ markerModuleName name ++ "\x7b "
          ++ String.join (order.map (fun p => markerRendering p.1)) ++ "\x7d"
      ∧ getMarker name field = markerModuleName name ++ "::" ++ field
      ∧ (order.map (fun p => markerRendering p.1)).length = order.length
      ∧ markerRendering field = "pub(crate) enum " ++ field ++ "\x7b\x7d" := by
  refine ⟨?_, ?_, by simp, rfl⟩
  · have hmod : ("#[allow(non_snake_case]\n mod enum___conversion___" : String) ++ name
        = "#[allow(non_snake_case]\n mod " ++ ("enum___conversion___" ++ name) := by
      rw [← String.append_assoc]
      exact congrArg (fun s => s ++ name) rfl
    simp only [createMarkerEnums, markerModuleName]
    rw [hmod]
  · rfl

/-- C7: the fully-applied name equals the declared name followed by the
comma-joined bare identifiers of the generic parameters in angle brackets, in
declaration order with bounds dropped, and the bare name alone when the
declaration has no generic parameters. -/
theorem claim_C7 (ast : DeriveInput)
    (h : ∀ p ∈ ast.params, bareParamIdent p ≠ "") :
    fetchNameWithGenericParams ast = fullyAppliedNameSpec ast := by
  obtain ⟨ident, ps, genericsDecl, whereClause, d⟩ := ast
  simp only [fetchNameWithGenericParams, fullyAppliedNameSpec] at h ⊢
  cases ps with
  | nil => rfl
  | cons p rest =>
    rw [foldlPushEq (p :: rest) (by simp) ""]
    have hcj : commaJoined ((p :: rest).map bareParamIdent) ≠ "" := by
      apply commaJoinedNeEmpty _ (by simp)
      intro x hx
      obtain ⟨q, hq, rfl⟩ := List.mem_map.mp hx
      exact h q hq
    have hnil : ("" : String).data = ([] : List Char) := rfl
    have hcomma : ("," : String).data = ([','] : List Char) := rfl
    have hdrop : ((("" : String) ++ commaJoined ((p :: rest).map bareParamIdent)
          ++ ",").data).dropLast
        = (commaJoined ((p :: rest).map bareParamIdent)).data := by
      simp [String.data_append, hnil, hcomma]
    rw [hdrop]
    have heta : (⟨(commaJoined ((p :: rest).map bareParamIdent)).data⟩ : String)
        = commaJoined ((p :: rest).map bareParamIdent) := rfl
    rw [heta, if_pos hcj]
    simp

/-- Witness for C7 at an enum with one lifetime, one type and one const
parameter. -/
theorem claim_C7_witness :
    fetchNameWithGenericParams
        ⟨"Enum", [.lifetimeParam "\x27a", .typeParam "T", .constParam "X"],
          "<\x27a, T: \x27a + Debug, const X: usize>", none, .structData⟩
      = fullyAppliedNameSpec
          ⟨"Enum", [.lifetimeParam "\x27a", .typeParam "T", .constParam "X"],
            "<\x27a, T: \x27a + Debug, const X: usize>", none, .structData⟩ :=
  claim_C7
    ⟨"Enum", [.lifetimeParam "\x27a", .typeParam "T", .constParam "X"],
      "<\x27a, T: \x27a + Debug, const X: usize>", none, .structData⟩
    (by decide)

/-- C1: on every valid declaration (an enum with N variants, each with exactly
one unnamed payload field, under distinct variant names as the host grammar
requires) the invocation completes, returning one generated unit that is the
marker namespace followed by the concatenated get-variant, fallible-conversion
and infallible-construction renderings, with exactly N renderings in each of
the three families and N marker declarations. -/
theorem claim_C1 (ast : DeriveInput) (variants : List Variant)
    (order : List (String × String))
    (hdata : ast.data = .enumData variants)
    (hvalid : ∀ v ∈ variants, ∃ ty, v.fields = .unnamed [ty])
    (hnodup : (variants.map Variant.ident).Nodup)
    (horder : IterationOrder ast order) :
    implConversions ast order = .ok
        (createMarkerEnums ast.ident order
          ++ implGetVariant ast.ident (fetchNameWithGenericParams ast)
              (fetchImplGenerics ast).2 (fetchImplGenerics ast).1 order
          ++ implTryFrom ast.ident (fetchNameWithGenericParams ast)
              (fetchImplGenerics ast).2 (fetchImplGenerics ast).1 order
          ++ implFrom (fetchNameWithGenericParams ast)
              (fetchImplGenerics ast).2 (fetchImplGenerics ast).1 order)
      ∧ (order.map (fun p => markerRendering p.1)).length = variants.length
      ∧ (getVariantRenderings ast.ident (fetchNameWithGenericParams ast)
          (fetchImplGenerics ast).2 (fetchImplGenerics ast).1 order).length
          = variants.length
      ∧ (tryFromRenderings ast.ident (fetchNameWithGenericParams ast)
          (fetchImplGenerics ast).2 (fetchImplGenerics ast).1 order).length
          = variants.length
      ∧ (fromRenderings (fetchNameWithGenericParams ast)
          (fetchImplGenerics ast).2 (fetchImplGenerics ast).1 order).length
          = variants.length := by
  obtain ⟨m, hm, hperm⟩ := horder
  obtain ⟨l, hl, hmap⟩ := collectEntriesOfValid variants hvalid
  have hmnodup : (l.map Prod.fst).Nodup := by
    rw [hmap]
    exact hnodup
  have hm2 : m = l := by
    have := hm
    simp [fetchFieldsFromEnum, Except.map, hdata, hl, hashCollectOfNodup l hmnodup]
      at this
    exact this.symm
  have hlen : order.length = variants.length := by
    rw [hperm.length_eq, hm2]
    calc l.length = (l.map Prod.fst).length := (List.length_map l Prod.fst).symm
      _ = (variants.map Variant.ident).length := by rw [hmap]
      _ = variants.length := List.length_map variants Variant.ident
  refine ⟨by simp [implConversions, hm], ?_, ?_, ?_, ?_⟩
  · simpa using hlen
  · simpa [getVariantRenderings] using hlen
  · simpa [tryFromRenderings] using hlen
  · simpa [fromRenderings] using hlen

/-- Witness for C1 at the spec scenario declaration and one iteration order of
its schema map. -/
theorem claim_C1_witness :
    implConversions sampleInput sampleOrder = .ok
        (createMarkerEnums sampleInput.ident sampleOrder
          ++ implGetVariant sampleInput.ident (fetchNameWithGenericParams sampleInput)
              (fetchImplGenerics sampleInput).2 (fetchImplGenerics sampleInput).1 sampleOrder
          ++ implTryFrom sampleInput.ident (fetchNameWithGenericParams sampleInput)
              (fetchImplGenerics sampleInput).2 (fetchImplGenerics sampleInput).1 sampleOrder
          ++ implFrom (fetchNameWithGenericParams sampleInput)
              (fetchImplGenerics sampleInput).2 (fetchImplGenerics sampleInput).1 sampleOrder)
      ∧ (sampleOrder.map (fun p => markerRendering p.1)).length
          = ([⟨"A", Fields.unnamed ["i64"]⟩, ⟨"B", Fields.unnamed ["bool"]⟩] : List Variant).length
      ∧ (getVariantRenderings sampleInput.ident (fetchNameWithGenericParams sampleInput)
          (fetchImplGenerics sampleInput).2 (fetchImplGenerics sampleInput).1
          sampleOrder).length
          = ([⟨"A", Fields.unnamed ["i64"]⟩, ⟨"B", Fields.unnamed ["bool"]⟩] : List Variant).length
      ∧ (tryFromRenderings sampleInput.ident (fetchNameWithGenericParams sampleInput)
          (fetchImplGenerics sampleInput).2 (fetchImplGenerics sampleInput).1
          sampleOrder).length
          = ([⟨"A", Fields.unnamed ["i64"]⟩, ⟨"B", Fields.unnamed ["bool"]⟩] : List Variant).length
      ∧ (fromRenderings (fetchNameWithGenericParams sampleInput)
          (fetchImplGenerics sampleInput).2 (fetchImplGenerics sampleInput).1
          sampleOrder).length
          = ([⟨"A", Fields.unnamed ["i64"]⟩, ⟨"B", Fields.unnamed ["bool"]⟩] : List Variant).length :=
  claim_C1 sampleInput [⟨"A", .unnamed ["i64"]⟩, ⟨"B", .unnamed ["bool"]⟩] sampleOrder
    rfl
    (by
      intro v hv
      have hv2 : v = ⟨"A", Fields.unnamed ["i64"]⟩ ∨ v = ⟨"B", Fields.unnamed ["bool"]⟩ := by
        simpa using hv
      rcases hv2 with rfl | rfl
      · exact ⟨"i64", rfl⟩
      · exact ⟨"bool", rfl⟩)
    (by decide)
    ⟨sampleOrder, rfl, List.Perm.refl sampleOrder⟩

/-- C2 (amended): two invocations on syntactically identical input produce
identical schemas, and within one invocation the marker namespace and all
three families are concatenated in the one iteration order of its schema map;
but the hash map leaves that order unspecified, so the units of two
invocations are only guaranteed to agree up to a permutation of the
per-variant renderings of each family. -/
theorem claim_C2 (ast : DeriveInput) (o1 o2 : List (String × String))
    (h1 : IterationOrder ast o1) (h2 : IterationOrder ast o2) :
    (∃ m, fetchFieldsFromEnum ast = .ok m ∧ o1.Perm m ∧ o2.Perm m)
      ∧ implConversions ast o1 = .ok
          (createMarkerEnums ast.ident o1
            ++ implGetVariant ast.ident (fetchNameWithGenericParams ast)
                (fetchImplGenerics ast).2 (fetchImplGenerics ast).1 o1
            ++ implTryFrom ast.ident (fetchNameWithGenericParams ast)
                (fetchImplGenerics ast).2 (fetchImplGenerics ast).1 o1
            ++ implFrom (fetchNameWithGenericParams ast)
                (fetchImplGenerics ast).2 (fetchImplGenerics ast).1 o1)
      ∧ (o1.map (fun p => markerRendering p.1)).Perm
          (o2.map (fun p => markerRendering p.1))
      ∧ (getVariantRenderings ast.ident (fetchNameWithGenericParams ast)
          (fetchImplGenerics ast).2 (fetchImplGenerics ast).1 o1).Perm
          (getVariantRenderings ast.ident (fetchNameWithGenericParams ast)
            (fetchImplGenerics ast).2 (fetchImplGenerics ast).1 o2)
      ∧ (tryFromRenderings ast.ident (fetchNameWithGenericParams ast)
          (fetchImplGenerics ast).2 (fetchImplGenerics ast).1 o1).Perm
          (tryFromRenderings ast.ident (fetchNameWithGenericParams ast)
            (fetchImplGenerics ast).2 (fetchImplGenerics ast).1 o2)
      ∧ (fromRenderings (fetchNameWithGenericParams ast)
          (fetchImplGenerics ast).2 (fetchImplGenerics ast).1 o1).Perm
          (fromRenderings (fetchNameWithGenericParams ast)
            (fetchImplGenerics ast).2 (fetchImplGenerics ast).1 o2) := by
  obtain ⟨m1, hm1, hp1⟩ := h1
  obtain ⟨m2, hm2, hp2⟩ := h2
  have hm12 : m1 = m2 := by
    have := hm1.symm.trans hm2
    simpa using this
  have hp12 : o1.Perm o2 := hp1.trans (hm12 ▸ hp2).symm
  refine ⟨⟨m1, hm1, hp1, hm12 ▸ hp2⟩, by simp [implConversions, hm1], hp12.map _,
    hp12.map _, hp12.map _, hp12.map _⟩

/-- Witness for C2 at the spec scenario declaration and the two iteration
orders of its schema map. -/
theorem claim_C2_witness :
    (∃ m, fetchFieldsFromEnum sampleInput = .ok m
        ∧ sampleOrder.Perm m ∧ sampleOrderRev.Perm m)
      ∧ implConversions sampleInput sampleOrder = .ok
          (createMarkerEnums sampleInput.ident sampleOrder
            ++ implGetVariant sampleInput.ident (fetchNameWithGenericParams sampleInput)
                (fetchImplGenerics sampleInput).2 (fetchImplGenerics sampleInput).1
                sampleOrder
            ++ implTryFrom sampleInput.ident (fetchNameWithGenericParams sampleInput)
                (fetchImplGenerics sampleInput).2 (fetchImplGenerics sampleInput).1
                sampleOrder
            ++ implFrom (fetchNameWithGenericParams sampleInput)
                (fetchImplGenerics sampleInput).2 (fetchImplGenerics sampleInput).1
                sampleOrder)
      ∧ (sampleOrder.map (fun p => markerRendering p.1)).Perm
          (sampleOrderRev.map (fun p => markerRendering p.1))
      ∧ (getVariantRenderings sampleInput.ident (fetchNameWithGenericParams sampleInput)
          (fetchImplGenerics sampleInput).2 (fetchImplGenerics sampleInput).1
          sampleOrder).Perm
          (getVariantRenderings sampleInput.ident (fetchNameWithGenericParams sampleInput)
            (fetchImplGenerics sampleInput).2 (fetchImplGenerics sampleInput).1
            sampleOrderRev)
      ∧ (tryFromRenderings sampleInput.ident (fetchNameWithGenericParams sampleInput)
          (fetchImplGenerics sampleInput).2 (fetchImplGenerics sampleInput).1
          sampleOrder).Perm
          (tryFromRenderings sampleInput.ident (fetchNameWithGenericParams sampleInput)
            (fetchImplGenerics sampleInput).2 (fetchImplGenerics sampleInput).1
            sampleOrderRev)
      ∧ (fromRenderings (fetchNameWithGenericParams sampleInput)
          (fetchImplGenerics sampleInput).2 (fetchImplGenerics sampleInput).1
          sampleOrder).Perm
          (fromRenderings (fetchNameWithGenericParams sampleInput)
            (fetchImplGenerics sampleInput).2 (fetchImplGenerics sampleInput).1
            sampleOrderRev) :=
  claim_C2 sampleInput sampleOrder sampleOrderRev
    ⟨sampleOrder, rfl, List.Perm.refl sampleOrder⟩
    ⟨sampleOrder, rfl, by decide⟩

/-- Counterexample to C2 as stated: on the spec scenario declaration the two
iteration orders of the one schema map are both admissible, yet the generated
units they yield differ, so two invocations on syntactically identical input
need not produce an identical generated unit. -/
theorem claim_C2_counterexample :
    IterationOrder sampleInput sampleOrder
      ∧ IterationOrder sampleInput sampleOrderRev
      ∧ (implConversions sampleInput sampleOrder).toOption
          ≠ (implConversions sampleInput sampleOrderRev).toOption := by
  refine ⟨⟨sampleOrder, rfl, List.Perm.refl sampleOrder⟩,
    ⟨sampleOrder, rfl, by decide⟩, by decide⟩

end EnumConv
